import Mathlib

/-!
Verification development for the UCCA transition oracle (`parser/oracle.py`)
and the structural validator (`ucca/validation.py`).

Shallow embedding conventions:
* Nodes and edges reference each other by string ID (never by pointer), so a
  `Passage` is a flat list of nodes; `by_id` is the passage's id lookup.
  A failed lookup yields `dummyNode` (the algorithms under study only look up
  ids present in the passage; none of the proved properties depend on the
  fallback).
* Python sets are modelled as lists used up to membership.  Where the source
  iterates over a set intersection (`edges_left.intersection(...)`), whose
  iteration order CPython leaves unspecified, we fix the deterministic
  linearisation that follows the order of the node's own edge list — one of
  the realisable orders.
* Parser stacks are Lean lists with the head as the stack top (Python
  `stack[-1]`), buffers are lists with the head as the buffer front
  (Python `buffer[0]`).
* The mutation of the oracle's fields (`edges_left`, `nodes_left`,
  `swapped`) is made explicit: `get_action` returns the action together with
  the updated oracle.
-/

/-- An edge of the passage graph: parent → child with a tag and the `remote`
attribute (`edge.attrib.get("remote")` in the source).  `eid` models Python
object identity so that structurally similar edges stay distinguishable. -/
structure Edge where
  eid : Nat
  parentId : String
  childId : String
  tag : String
  remote : Bool
deriving DecidableEq, Repr

/-- A node of the passage graph: id, node tag, terminal text, the `implicit`
node attribute, and its incoming/outgoing edge lists. -/
structure Node where
  nid : String
  tag : String
  text : String
  implicitAttr : Bool
  incoming : List Edge
  outgoing : List Edge
deriving DecidableEq, Repr

/-- Fallback node for failed id lookups (see module conventions). -/
def dummyNode : Node :=
  { nid := "", tag := "", text := "", implicitAttr := false,
    incoming := [], outgoing := [] }

/-- A passage: all nodes, plus the layer structure the two algorithms read:
layer-0 (terminal) node ids, layer-1 (structural) node ids and the layer-1
head nodes. -/
structure Passage where
  nodes : List Node
  layer0Ids : List String
  layer1Ids : List String
  headIds : List String
deriving DecidableEq, Repr

/-- `passage.by_id(i)`: look a node up by its id. -/
def by_id (p : Passage) (i : String) : Node :=
  (p.nodes.find? (fun n => n.nid == i)).getD dummyNode

/-- The parser state the oracle reads: stack (head = top, Python `stack[-1]`)
and buffer (head = front, Python `buffer[0]`) of node ids. -/
structure PState where
  stack : List String
  buffer : List String
deriving DecidableEq, Repr

/-- Modelled from the spec: the `PAction` class (`parser/action.py`, not under
`src/`) is described in §6 and §9 as a tagged union with one variant per
action kind, each carrying only the fields that kind uses (tag and/or target
node id, and for SWAP an optional distance). -/
inductive PAction where
  | SHIFT
  | REDUCE
  | WRAP
  | FINISH
  | ROOT (tag : String) (nodeId : String)
  | NODE (tag : String) (nodeId : String)
  | IMPLICIT (tag : String) (nodeId : String)
  | RIGHT_EDGE (tag : String)
  | RIGHT_REMOTE (tag : String)
  | LEFT_EDGE (tag : String)
  | LEFT_REMOTE (tag : String)
  | SWAP (distance : Option Nat)
deriving DecidableEq, Repr

/-- `ROOT_ID = "1.1"`, the id of the root node of UCCA passages. -/
def ROOT_ID : String := "1.1"

/-- The oracle's mutable working state: `nodes_left`, `edges_left`,
`swapped` (unordered id pairs), and the `compound_swap` flag. -/
structure Oracle where
  nodes_left : List String
  edges_left : List Edge
  swapped : List (String × String)
  compound_swap : Bool
deriving DecidableEq, Repr

/-- `Oracle.__init__`: `nodes_left` is the set of layer-1 node ids minus the
root, `edges_left` is the set of all edges owned by the passage's nodes
(iterating a node yields its outgoing edges). -/
def Oracle.init (p : Passage) (compound_swap : Bool) : Oracle :=
  { nodes_left := p.layer1Ids.filter (fun i => i ≠ ROOT_ID),
    edges_left := p.nodes.flatMap (fun n => n.outgoing),
    swapped := [],
    compound_swap := compound_swap }

/-- Membership of the unordered pair `{a, b}` (Python `frozenset((s, s2))`)
in the `swapped` set. -/
def pairMem (sw : List (String × String)) (a b : String) : Bool :=
  sw.any (fun q => (q.1 == a && q.2 == b) || (q.1 == b && q.2 == a))

/-- Steps 2a/2b of `get_action` (the block guarded by `if state.stack`):
`edges = edges_left ∩ (s.incoming + s.outgoing)`; if empty return REDUCE;
if it is a singleton whose parent is the root, remove it and return ROOT;
otherwise fall through (`none`). -/
def stackPhase (o : Oracle) (s : Node) : Option (PAction × Oracle) :=
  let edges := (s.incoming ++ s.outgoing).filter (fun e => o.edges_left.contains e)
  if edges.isEmpty then some (PAction.REDUCE, o)
  else
    match edges with
    | [e] =>
      if e.parentId == ROOT_ID then
        some (PAction.ROOT e.tag ROOT_ID, { o with edges_left := o.edges_left.erase e })
      else none
    | _ => none

/-- Step 4 of `get_action`: the first edge of `edges_left ∩ b.incoming` whose
parent id is still in `nodes_left` and which is not remote. -/
def nodeScan (o : Oracle) (b : Node) : Option Edge :=
  (b.incoming.filter (fun e => o.edges_left.contains e)).find?
    (fun e => o.nodes_left.contains e.parentId && !e.remote)

/-- Step 5 of `get_action`: the single pass over `edges_left ∩ s.outgoing`
returning at the first edge whose child is `b` (→ RIGHT action) or whose
child carries the `implicit` attribute (→ IMPLICIT action). -/
def rightScan (p : Passage) (o : Oracle) (s : Node) (b : Node) : Option Edge :=
  (s.outgoing.filter (fun e => o.edges_left.contains e)).find?
    (fun e => e.childId == b.nid || (by_id p e.childId).implicitAttr)

/-- Step 6 of `get_action`: the first edge of `edges_left ∩ b.outgoing`
whose child is `s`. -/
def leftScan (o : Oracle) (b : Node) (s : Node) : Option Edge :=
  (b.outgoing.filter (fun e => o.edges_left.contains e)).find?
    (fun e => e.childId == s.nid)

/-- The boolean condition of `check_swap_distance`'s loop body, with Python's
operator precedence (`and` binds tighter than `or`):
`children`/`parents` are the child/parent ids of `s2`'s remaining outgoing /
incoming edges, and the condition is the three-clause disjunction over
stack/buffer membership. -/
def swapCondition (el : List Edge) (st : PState) (s2 : Node) : Bool :=
  let children := (s2.outgoing.filter (fun e => el.contains e)).map (fun e => e.childId)
  let parents := (s2.incoming.filter (fun e => el.contains e)).map (fun e => e.parentId)
  (st.buffer.any (fun c => children.contains c) &&
      !(st.stack.any (fun c => children.contains c))) ||
    (st.stack.any (fun q => parents.contains q) &&
      !(st.buffer.any (fun q => parents.contains q))) ||
    (st.buffer.any (fun q => parents.contains q) &&
      !(st.stack.any (fun q => parents.contains q)))

/-- The `while` loop of `check_swap_distance`.  The loop guard
`len(stack) > distance + 1` says the element `stack[-distance-2]` exists; we
realise this by recursing over `rest`, the part of the stack strictly below
the top, so that at loop iteration `distance` the head of `rest` is exactly
`stack[-distance-2]` and the guard is `rest ≠ []`. -/
def check_swap_loop (p : Passage) (cs : Bool) (el : List Edge) (s : Node)
    (st : PState) : List String → Nat → List (String × String) →
    Nat × List (String × String)
  | [], distance, sw => (distance, sw)
  | s2id :: rest, distance, sw =>
    if cs || distance < 1 then
      let s2 := by_id p s2id
      if pairMem sw s.nid s2.nid then (distance, sw)
      else if swapCondition el st s2 then
        check_swap_loop p cs el s st rest (distance + 1) ((s.nid, s2.nid) :: sw)
      else (distance, sw)
    else (distance, sw)

/-- `Oracle.check_swap_distance(s, state)`: returns the distance together
with the updated `swapped` set (mutated in place in the source). -/
def check_swap_distance (p : Passage) (o : Oracle) (s : Node) (st : PState) :
    Nat × List (String × String) :=
  check_swap_loop p o.compound_swap o.edges_left s st (st.stack.drop 1) 0 o.swapped

/-- The part of `get_action` after the `if state.stack` block has fallen
through (steps 3–8): WRAP on empty buffer, NODE scan, then — with a
non-empty stack — the RIGHT/IMPLICIT scan, the LEFT scan and the swap
check; SHIFT otherwise. -/
def afterStackPhase (p : Passage) (o : Oracle) (st : PState) : PAction × Oracle :=
  match st.buffer with
  | [] => (PAction.WRAP, { o with swapped := [] })
  | bid :: _ =>
    let b := by_id p bid
    match nodeScan o b with
    | some e =>
      (PAction.NODE e.tag e.parentId,
        { o with edges_left := o.edges_left.erase e,
                 nodes_left := o.nodes_left.erase e.parentId })
    | none =>
      match st.stack with
      | [] => (PAction.SHIFT, o)
      | sid :: _ =>
        let s := by_id p sid
        match rightScan p o s b with
        | some e =>
          if e.childId == b.nid then
            ((if e.remote then PAction.RIGHT_REMOTE e.tag else PAction.RIGHT_EDGE e.tag),
              { o with edges_left := o.edges_left.erase e })
          else
            (PAction.IMPLICIT e.tag e.childId,
              { o with edges_left := o.edges_left.erase e,
                       nodes_left := o.nodes_left.erase e.childId })
        | none =>
          match leftScan o b s with
          | some e =>
            ((if e.remote then PAction.LEFT_REMOTE e.tag else PAction.LEFT_EDGE e.tag),
              { o with edges_left := o.edges_left.erase e })
          | none =>
            let r := check_swap_distance p o s st
            if r.1 ≠ 0 then
              (PAction.SWAP (if o.compound_swap then some r.1 else none),
                { o with swapped := r.2 })
            else (PAction.SHIFT, { o with swapped := r.2 })

/-- `Oracle.get_action(state)`: the full decision procedure, returning the
action together with the updated oracle. -/
def get_action (p : Passage) (o : Oracle) (st : PState) : PAction × Oracle :=
  if o.edges_left.isEmpty then (PAction.FINISH, o)
  else
    match st.stack with
    | [] => afterStackPhase p o st
    | sid :: _ =>
      match stackPhase o (by_id p sid) with
      | some r => r
      | none => afterStackPhase p o st

/-!
The validator (`ucca/validation.py`).  The generator of diagnostic strings is
modelled as a function producing a list of structured diagnostics `Diag`, one
constructor per `yield` site, together with `Diag.render` reproducing the
format strings, so that properties can be stated on the diagnostics' shape.
-/

/-- Modelled from the spec: tag constants referenced from the `layer0` /
`layer1` modules (not under `src/`); the concrete strings are irrelevant to
every property proved here, only their pairwise distinctness within a check
matters. -/
def EdgeTag_Punctuation : String := "U"

/-- Modelled from the spec: `layer1.EdgeTags.LinkRelation`. -/
def EdgeTag_LinkRelation : String := "LR"

/-- Modelled from the spec: `layer1.EdgeTags.LinkArgument`. -/
def EdgeTag_LinkArgument : String := "LA"

/-- Modelled from the spec: `layer1.NodeTags.Linkage`. -/
def NodeTag_Linkage : String := "LKG"

/-- Modelled from the spec: `layer1.NodeTags.Punctuation`. -/
def NodeTag_Punctuation : String := "PNCT"

/-- Modelled from the spec: `layer0.NodeTags.Punct`. -/
def Layer0Tag_Punct : String := "Punct"

/-- `LINKAGE = (layer1.EdgeTags.LinkArgument, layer1.EdgeTags.LinkRelation)`. -/
def LINKAGE : List String := [EdgeTag_LinkArgument, EdgeTag_LinkRelation]

/-- One structured diagnostic per `yield` site of `validate`. -/
inductive Diag where
  | orphan (id : String) (text : String)
  | reentrant (incoming : List Edge) (text : String)
  | extraRoot (id : String)
  | cycle (path : List String)
  | multiIncoming (incoming : List Edge)
  | punctEdge (edgeTag : String) (e : Edge) (childTag : String)
  | punctNode (nodeTag : String) (id : String) (childTag : String) (childId : String)
deriving DecidableEq, Repr

/-- Modelled from the spec: the string form of an edge (`str(edge)`, defined
in the core graph library, not under `src/`): the edge rendered through its
endpoint ids and tag. -/
def edgeStr (e : Edge) : String :=
  e.parentId ++ "->" ++ e.childId ++ ":" ++ e.tag

/-- `join(incoming) = ", ".join(map(str, incoming))`. -/
def joinEdges (es : List Edge) : String :=
  String.intercalate ", " (es.map edgeStr)

/-- The format strings of the `yield` statements of `validate`. -/
def Diag.render : Diag → String
  | .orphan i t => "Orphan terminal (" ++ i ++ ") '" ++ t ++ "'"
  | .reentrant inc t => "Reentrant terminal (" ++ joinEdges inc ++ ") '" ++ t ++ "'"
  | .extraRoot i => "Extra root (" ++ i ++ ")"
  | .cycle path => "Detected cycle (" ++ String.intercalate "->" path ++ ")"
  | .multiIncoming inc => "Multiple incoming non-remote (" ++ joinEdges inc ++ ")"
  | .punctEdge et e ct => et ++ " edge (" ++ edgeStr e ++ ") with " ++ ct ++ " child"
  | .punctNode nt i ct ci =>
      nt ++ " node (" ++ i ++ ") with " ++ ct ++ " child (" ++ ci ++ ")"

/-- Recognise the orphan-terminal diagnostic. -/
def Diag.isOrphan : Diag → Bool
  | .orphan _ _ => true
  | _ => false

/-- Recognise the reentrant-terminal diagnostic. -/
def Diag.isReentrant : Diag → Bool
  | .reentrant _ _ => true
  | _ => false

/-- Recognise the cycle diagnostic. -/
def Diag.isCycle : Diag → Bool
  | .cycle _ => true
  | _ => false

/-- The first loop of `validate`: over the layer-0 (terminal) nodes, yield
an orphan diagnostic when the terminal has no incoming edge and a reentrant
diagnostic (naming all incoming edges) when it has more than one. -/
def terminalMsgs (p : Passage) : List Diag :=
  p.layer0Ids.flatMap (fun i =>
    let node := by_id p i
    if node.incoming.isEmpty then [Diag.orphan node.nid node.text]
    else if node.incoming.length > 1 then [Diag.reentrant node.incoming node.text]
    else [])

/-- The second loop of `validate`: over the layer-1 heads, any head that is
not node `"1.1"` and not a linkage node is an extra root. -/
def extraRootMsgs (p : Passage) : List Diag :=
  p.headIds.flatMap (fun i =>
    let node := by_id p i
    if node.nid != "1.1" && node.tag != NodeTag_Linkage then [Diag.extraRoot node.nid]
    else [])

/-- `node.children`: the child ids of a node's outgoing edges. -/
def childrenIds (p : Passage) (i : String) : List String :=
  ((by_id p i).outgoing).map (fun e => e.childId)

/-- The diagnostics yielded when the depth-first traversal expands a node:
the multiple-incoming-non-remote check over its non-remote non-linkage
incoming edges, then the two punctuation-consistency checks per outgoing
edge. -/
def nodeCheckMsgs (p : Passage) (node : Node) : List Diag :=
  let inc := node.incoming.filter (fun e => !e.remote && !(LINKAGE.contains e.tag))
  (if inc.length > 1 then [Diag.multiIncoming inc] else []) ++
    node.outgoing.flatMap (fun e =>
      let childTag := (by_id p e.childId).tag
      (if (e.tag == EdgeTag_Punctuation) != (childTag == NodeTag_Punctuation) then
          [Diag.punctEdge e.tag e childTag]
        else []) ++
        (if (node.tag == NodeTag_Punctuation) != (childTag == Layer0Tag_Punct) then
            [Diag.punctNode node.tag node.nid childTag e.childId]
          else []))

/-- The `for node in stack[-1]` scan of the traversal: a node on the current
path yields a cycle diagnostic (naming the current path) and the scan moves
on; a node already fully visited is skipped; the first node that is neither
stops the scan (`break`) and is expanded by the caller.  Returns the yielded
diagnostics and the node to expand, if any. -/
def scanTop (pset visited : Finset String) (path : List String) :
    List String → List Diag × Option String
  | [] => ([], none)
  | n :: ns =>
    if n ∈ pset then
      let r := scanTop pset visited path ns
      (Diag.cycle path :: r.1, r.2)
    else if n ∈ visited then scanTop pset visited path ns
    else ([], some n)

/-- The `while stack` loop of `validate`'s depth-first traversal.  One fuel
unit is spent per iteration; `dfs_terminates` below shows the explicit fuel
`dfsFuel` always suffices, so the fuel is only a structural-recursion
artefact, not a semantic device.  On expansion the node is added to
`visited`, to the path and its id set, and its children list is pushed; when
the scan is exhausted the top list is popped together with the last path
element. -/
def dfsLoop (p : Passage) : Nat → List (List String) → List String →
    Finset String → Finset String → Option (List Diag)
  | 0, _, _, _, _ => none
  | _ + 1, [], _, _, _ => some []
  | fuel + 1, top :: rest, path, pset, visited =>
    match scanTop pset visited path top with
    | (ms, some n) =>
      (dfsLoop p fuel (childrenIds p n :: (top :: rest)) (path ++ [n])
          (insert n pset) (insert n visited)).map
        (fun more => ms ++ nodeCheckMsgs p (by_id p n) ++ more)
    | (ms, none) =>
      let pr : List String × Finset String :=
        match path.getLast? with
        | some last => (path.dropLast, pset.erase last)
        | none => (path, pset)
      (dfsLoop p fuel rest pr.1 pr.2 visited).map (fun more => ms ++ more)

/-- Every node id the traversal can ever push: the head ids and the child
ids of the passage's edges. -/
def idUniverse (p : Passage) : Finset String :=
  (p.headIds ++ p.nodes.flatMap (fun n => n.outgoing.map (fun e => e.childId))).toFinset

/-- Fuel that `dfs_terminates` proves sufficient for the whole traversal. -/
def dfsFuel (p : Passage) : Nat :=
  2 * (idUniverse p).card + 2

/-- The depth-first phase of `validate`, from the initial configuration
`stack = [heads]`, empty path and empty visited set. -/
def validateDfs (p : Passage) : Option (List Diag) :=
  dfsLoop p (dfsFuel p) [p.headIds] [] ∅ ∅

/-- `validate(passage)`: terminal checks, extra-root checks, then the
depth-first traversal's diagnostics, in the order the generator yields
them. -/
def validate (p : Passage) : List Diag :=
  terminalMsgs p ++ extraRootMsgs p ++ (validateDfs p).getD []

/-- `validate` rendered to the exact strings the generator yields. -/
def validateStrings (p : Passage) : List String :=
  (validate p).map Diag.render

/-!
Concrete scenario passages used by the claims.
-/

/-- Edge root → child for the minimal oracle scenario, tag `"A"`. -/
def c1EdgeRA : Edge := { eid := 0, parentId := "1.1", childId := "1.2", tag := "A", remote := false }

/-- Edge child → terminal for the minimal oracle scenario. -/
def c1EdgeXT : Edge := { eid := 1, parentId := "1.2", childId := "0.1", tag := "Terminal", remote := false }

/-- The minimal oracle scenario: one root, one structural child tagged `"A"`
attached directly to the root, one terminal child of that structural node. -/
def c1Passage : Passage :=
  { nodes :=
      [ { nid := "1.1", tag := "FN", text := "", implicitAttr := false,
          incoming := [], outgoing := [c1EdgeRA] },
        { nid := "1.2", tag := "FN", text := "", implicitAttr := false,
          incoming := [c1EdgeRA], outgoing := [c1EdgeXT] },
        { nid := "0.1", tag := "Word", text := "w", implicitAttr := false,
          incoming := [c1EdgeXT], outgoing := [] } ],
    layer0Ids := ["0.1"],
    layer1Ids := ["1.1", "1.2"],
    headIds := ["1.1"] }

/-- Oracle state after the first call of the minimal scenario. -/
def c1OracleAfter1 : Oracle :=
  { nodes_left := ["1.2"], edges_left := [c1EdgeXT], swapped := [], compound_swap := false }

/-- Oracle state after the NODE action of the minimal scenario. -/
def c1OracleAfter3 : Oracle :=
  { nodes_left := [], edges_left := [], swapped := [], compound_swap := false }

/-- Implicit-child edge for the step-5 scan scenario: it precedes the
buffer-front edge in the stack top's outgoing list. -/
def c2EdgeImp : Edge := { eid := 0, parentId := "1.2", childId := "1.3", tag := "A", remote := false }

/-- Edge from the stack top to the buffer front for the step-5 scenario. -/
def c2EdgeB : Edge := { eid := 1, parentId := "1.2", childId := "0.1", tag := "T", remote := false }

/-- Scenario for the step-5 scan: the stack top owns an implicit-child edge
listed before an edge to the buffer front. -/
def c2Passage : Passage :=
  { nodes :=
      [ { nid := "1.2", tag := "FN", text := "", implicitAttr := false,
          incoming := [], outgoing := [c2EdgeImp, c2EdgeB] },
        { nid := "1.3", tag := "FN", text := "", implicitAttr := true,
          incoming := [c2EdgeImp], outgoing := [] },
        { nid := "0.1", tag := "Word", text := "w", implicitAttr := false,
          incoming := [c2EdgeB], outgoing := [] } ],
    layer0Ids := ["0.1"],
    layer1Ids := ["1.2", "1.3"],
    headIds := ["1.2"] }

/-- Oracle state for the step-5 scan scenario. -/
def c2Oracle : Oracle :=
  { nodes_left := ["1.3"], edges_left := [c2EdgeImp, c2EdgeB], swapped := [],
    compound_swap := false }

/-- Parser state for the step-5 scan scenario. -/
def c2State : PState := { stack := ["1.2"], buffer := ["0.1"] }

/-- Edge s2 → c for the swap-condition scenario. -/
def c3EdgeS2C : Edge := { eid := 0, parentId := "s2", childId := "c", tag := "A", remote := false }

/-- Edge s → s2 for the swap-condition scenario. -/
def c3EdgeSS2 : Edge := { eid := 1, parentId := "s", childId := "s2", tag := "A", remote := false }

/-- Scenario for the swap condition: the deeper stack element `s2` has an
unresolved child on the buffer and an unresolved parent on the stack, so two
of the three clauses hold at once. -/
def c3Passage : Passage :=
  { nodes :=
      [ { nid := "s", tag := "FN", text := "", implicitAttr := false,
          incoming := [], outgoing := [c3EdgeSS2] },
        { nid := "s2", tag := "FN", text := "", implicitAttr := false,
          incoming := [c3EdgeSS2], outgoing := [c3EdgeS2C] },
        { nid := "c", tag := "Word", text := "w", implicitAttr := false,
          incoming := [c3EdgeS2C], outgoing := [] } ],
    layer0Ids := ["c"],
    layer1Ids := ["s", "s2"],
    headIds := ["s"] }

/-- Oracle state for the swap-condition scenario. -/
def c3Oracle : Oracle :=
  { nodes_left := [], edges_left := [c3EdgeS2C, c3EdgeSS2], swapped := [],
    compound_swap := false }

/-- Parser state for the swap-condition scenario. -/
def c3State : PState := { stack := ["s", "s2"], buffer := ["c"] }

/-- Edge A → B of the three-node cycle scenario. -/
def cycEdgeAB : Edge := { eid := 0, parentId := "1.1", childId := "1.2", tag := "E", remote := false }

/-- Edge B → C of the three-node cycle scenario. -/
def cycEdgeBC : Edge := { eid := 1, parentId := "1.2", childId := "1.3", tag := "E", remote := false }

/-- Edge C → A of the three-node cycle scenario. -/
def cycEdgeCA : Edge := { eid := 2, parentId := "1.3", childId := "1.1", tag := "E", remote := false }

/-- Three structural nodes forming the cycle A → B → C → A, no terminals. -/
def cyclePassage : Passage :=
  { nodes :=
      [ { nid := "1.1", tag := "FN", text := "", implicitAttr := false,
          incoming := [cycEdgeCA], outgoing := [cycEdgeAB] },
        { nid := "1.2", tag := "FN", text := "", implicitAttr := false,
          incoming := [cycEdgeAB], outgoing := [cycEdgeBC] },
        { nid := "1.3", tag := "FN", text := "", implicitAttr := false,
          incoming := [cycEdgeBC], outgoing := [cycEdgeCA] } ],
    layer0Ids := [],
    layer1Ids := ["1.1", "1.2", "1.3"],
    headIds := ["1.1"] }

/-- Clause 1 of the swap rule as the spec words it: the buffer contains an
unresolved child of `s2` and the stack does not. -/
def clauseBufferChild (el : List Edge) (st : PState) (s2 : Node) : Bool :=
  let children := (s2.outgoing.filter (fun e => el.contains e)).map (fun e => e.childId)
  st.buffer.any (fun c => children.contains c) &&
    !(st.stack.any (fun c => children.contains c))

/-- Clause 2 of the swap rule as the spec words it: the stack contains an
unresolved parent of `s2` and the buffer does not. -/
def clauseStackParent (el : List Edge) (st : PState) (s2 : Node) : Bool :=
  let parents := (s2.incoming.filter (fun e => el.contains e)).map (fun e => e.parentId)
  st.stack.any (fun q => parents.contains q) &&
    !(st.buffer.any (fun q => parents.contains q))

/-- Clause 3 of the swap rule as the spec words it: the buffer contains an
unresolved parent of `s2` and the stack does not. -/
def clauseBufferParent (el : List Edge) (st : PState) (s2 : Node) : Bool :=
  let parents := (s2.incoming.filter (fun e => el.contains e)).map (fun e => e.parentId)
  st.buffer.any (fun q => parents.contains q) &&
    !(st.stack.any (fun q => parents.contains q))

/-- "Exactly one of the three clauses holds", the reading of the swap rule
the claim asserts. -/
def exactlyOneSwapClause (el : List Edge) (st : PState) (s2 : Node) : Bool :=
  (clauseBufferChild el st s2 && !clauseStackParent el st s2 && !clauseBufferParent el st s2) ||
    (!clauseBufferChild el st s2 && clauseStackParent el st s2 && !clauseBufferParent el st s2) ||
    (!clauseBufferChild el st s2 && !clauseStackParent el st s2 && clauseBufferParent el st s2)

/-- Total number of edges owned by the passage's nodes. -/
def edgeCount (p : Passage) : Nat :=
  (p.nodes.map (fun n => n.outgoing.length)).sum

/-- Per-iteration bound on the diagnostics the traversal can yield. -/
def stepBound (p : Passage) : Nat :=
  p.headIds.length + 3 * edgeCount p + 1

/-- Bound on the total number of diagnostics `validate` yields, a function
of the passage's node and edge counts. -/
def diagBound (p : Passage) : Nat :=
  p.layer0Ids.length + p.headIds.length + dfsFuel p * stepBound p

/-- Invariant of the traversal's stack of lists: every list on it is short
enough and only mentions ids from `idUniverse`. -/
def StackOK (p : Passage) (stack : List (List String)) : Prop :=
  ∀ l ∈ stack, l.length ≤ p.headIds.length + edgeCount p ∧ ∀ i ∈ l, i ∈ idUniverse p

/-!
Theorems.  Helper lemmas first, then one theorem per claim (with witnesses
where the statement carries hypotheses).
-/

lemma check_swap_loop_fst_ge (p : Passage) (cs : Bool) (el : List Edge) (s : Node)
    (st : PState) : ∀ (rest : List String) (d : Nat) (sw : List (String × String)),
    d ≤ (check_swap_loop p cs el s st rest d sw).1 := by
  intro rest
  induction rest with
  | nil => intro d sw; exact Nat.le_refl d
  | cons s2id t ih =>
    intro d sw
    simp only [check_swap_loop]
    split
    · split
      · exact Nat.le_refl d
      · split
        · exact Nat.le_trans (Nat.le_succ d) (ih (d + 1) _)
        · exact Nat.le_refl d
    · exact Nat.le_refl d

lemma check_swap_loop_fst_le (p : Passage) (cs : Bool) (el : List Edge) (s : Node)
    (st : PState) : ∀ (rest : List String) (d : Nat) (sw : List (String × String)),
    (check_swap_loop p cs el s st rest d sw).1 ≤ d + rest.length := by
  intro rest
  induction rest with
  | nil => intro d sw; simp [check_swap_loop]
  | cons s2id t ih =>
    intro d sw
    simp only [check_swap_loop, List.length_cons]
    split
    · split
      · omega
      · split
        · have := ih (d + 1) ((s.nid, (by_id p s2id).nid) :: sw)
          omega
        · omega
    · omega

lemma check_swap_loop_swapped_mono (p : Passage) (cs : Bool) (el : List Edge) (s : Node)
    (st : PState) : ∀ (rest : List String) (d : Nat) (sw : List (String × String))
    (x : String × String), x ∈ sw → x ∈ (check_swap_loop p cs el s st rest d sw).2 := by
  intro rest
  induction rest with
  | nil => intro d sw x hx; exact hx
  | cons s2id t ih =>
    intro d sw x hx
    simp only [check_swap_loop]
    split
    · split
      · exact hx
      · split
        · exact ih (d + 1) _ x (List.mem_cons_of_mem _ hx)
        · exact hx
    · exact hx

lemma check_swap_loop_stop (p : Passage) (el : List Edge) (s : Node) (st : PState)
    (rest : List String) (d : Nat) (sw : List (String × String)) (hd : 1 ≤ d) :
    check_swap_loop p false el s st rest d sw = (d, sw) := by
  cases rest with
  | nil => rfl
  | cons s2id t =>
    simp only [check_swap_loop]
    have : (false || decide (d < 1)) = false := by
      simp; omega
    rw [this]
    simp

/-- C6: when the oracle is constructed with `compound_swap = False`,
`check_swap_distance` never returns a distance greater than 1. -/
theorem check_swap_distance_le_one (p : Passage) (o : Oracle) (s : Node) (st : PState)
    (h : o.compound_swap = false) : (check_swap_distance p o s st).1 ≤ 1 := by
  unfold check_swap_distance
  rw [h]
  cases hrest : st.stack.drop 1 with
  | nil => simp [check_swap_loop]
  | cons s2id t =>
    simp only [check_swap_loop]
    split
    · split
      · omega
      · split
        · rw [check_swap_loop_stop p o.edges_left s st t 1 _ (Nat.le_refl 1)]
        · omega
    · omega

/-- Witness for `check_swap_distance_le_one`. -/
theorem check_swap_distance_le_one_witness :
    c3Oracle.compound_swap = false ∧
      (check_swap_distance c3Passage c3Oracle (by_id c3Passage "s") c3State).1 ≤ 1 :=
  ⟨by decide, check_swap_distance_le_one c3Passage c3Oracle (by_id c3Passage "s") c3State rfl⟩

/-- C10: `check_swap_distance` is total (a terminating function of the
embedding), every deeper-stack access it performs is realised by structural
recursion over the part of the stack strictly below the top (so the access
witnessed by the loop guard `len(stack) > distance + 1` is in bounds by
construction), and the returned distance is at most `len(stack) - 1`. -/
theorem check_swap_distance_le_stack (p : Passage) (o : Oracle) (s : Node) (st : PState)
    (h : st.stack ≠ []) : (check_swap_distance p o s st).1 ≤ st.stack.length - 1 := by
  unfold check_swap_distance
  have := check_swap_loop_fst_le p o.compound_swap o.edges_left s st (st.stack.drop 1) 0
    o.swapped
  simpa using this

/-- Witness for `check_swap_distance_le_stack`. -/
theorem check_swap_distance_le_stack_witness :
    c3State.stack ≠ [] ∧
      (check_swap_distance c3Passage c3Oracle (by_id c3Passage "s") c3State).1 ≤
        c3State.stack.length - 1 :=
  ⟨by decide, check_swap_distance_le_stack c3Passage c3Oracle (by_id c3Passage "s") c3State
    (by decide)⟩

lemma swapCondition_eq_clauses (el : List Edge) (st : PState) (s2 : Node) :
    swapCondition el st s2 =
      (clauseBufferChild el st s2 || clauseStackParent el st s2 ||
        clauseBufferParent el st s2) := rfl

/-- C3 counterexample: a loop iteration of `check_swap_distance` where the
distance is incremented and the pair recorded although two of the three
clauses hold at once, so "exactly one" fails. -/
theorem swap_not_exactly_one_counterexample :
    (check_swap_distance c3Passage c3Oracle (by_id c3Passage "s") c3State).1 = 1 ∧
      pairMem (check_swap_distance c3Passage c3Oracle (by_id c3Passage "s") c3State).2
        "s" "s2" = true ∧
      clauseBufferChild c3Oracle.edges_left c3State (by_id c3Passage "s2") = true ∧
      clauseStackParent c3Oracle.edges_left c3State (by_id c3Passage "s2") = true ∧
      exactlyOneSwapClause c3Oracle.edges_left c3State (by_id c3Passage "s2") = false := by
  decide

/-- C3 amended: in a loop iteration of `check_swap_distance` whose pair is
not yet in `swapped` and whose guard passes, the distance is incremented and
the pair recorded iff AT LEAST ONE of the three clauses holds (several may
hold at once); the code's condition is exactly the plain disjunction of the
three clauses. -/
theorem swap_iteration_increments_iff (p : Passage) (cs : Bool) (el : List Edge)
    (s : Node) (st : PState) (s2id : String) (rest : List String) (d : Nat)
    (sw : List (String × String))
    (hpair : pairMem sw s.nid (by_id p s2id).nid = false)
    (hguard : (cs || decide (d < 1)) = true) :
    (d < (check_swap_loop p cs el s st (s2id :: rest) d sw).1 ↔
      (clauseBufferChild el st (by_id p s2id) || clauseStackParent el st (by_id p s2id) ||
        clauseBufferParent el st (by_id p s2id)) = true) ∧
      ((clauseBufferChild el st (by_id p s2id) || clauseStackParent el st (by_id p s2id) ||
          clauseBufferParent el st (by_id p s2id)) = true →
        pairMem (check_swap_loop p cs el s st (s2id :: rest) d sw).2 s.nid
          (by_id p s2id).nid = true) := by
  rw [← swapCondition_eq_clauses el st (by_id p s2id)]
  simp only [check_swap_loop, hguard, hpair, if_true, Bool.false_eq_true, if_false]
  cases hsc : swapCondition el st (by_id p s2id) with
  | false =>
    simp only [Bool.false_eq_true, if_false]
    refine ⟨⟨fun hlt => absurd hlt (by omega), fun hfalse => hfalse.elim⟩,
      fun hfalse => hfalse.elim⟩
  | true =>
    simp only [if_true]
    refine ⟨⟨fun _ => by trivial, fun _ => ?_⟩, fun _ => ?_⟩
    · have := check_swap_loop_fst_ge p cs el s st rest (d + 1)
        ((s.nid, (by_id p s2id).nid) :: sw)
      omega
    · have hmem : (s.nid, (by_id p s2id).nid) ∈
          (check_swap_loop p cs el s st rest (d + 1)
            ((s.nid, (by_id p s2id).nid) :: sw)).2 :=
        check_swap_loop_swapped_mono p cs el s st rest (d + 1) _ _ (List.mem_cons_self _ _)
      unfold pairMem
      rw [List.any_eq_true]
      exact ⟨_, hmem, by simp⟩

/-- Witness for `swap_iteration_increments_iff`. -/
theorem swap_iteration_increments_iff_witness :
    pairMem [] (by_id c3Passage "s").nid (by_id c3Passage "s2").nid = false ∧
      (false || decide ((0 : Nat) < 1)) = true ∧
      ((0 < (check_swap_loop c3Passage false c3Oracle.edges_left (by_id c3Passage "s")
            c3State ["s2"] 0 []).1 ↔
          (clauseBufferChild c3Oracle.edges_left c3State (by_id c3Passage "s2") ||
            clauseStackParent c3Oracle.edges_left c3State (by_id c3Passage "s2") ||
            clauseBufferParent c3Oracle.edges_left c3State (by_id c3Passage "s2")) = true) ∧
        ((clauseBufferChild c3Oracle.edges_left c3State (by_id c3Passage "s2") ||
            clauseStackParent c3Oracle.edges_left c3State (by_id c3Passage "s2") ||
            clauseBufferParent c3Oracle.edges_left c3State (by_id c3Passage "s2")) = true →
          pairMem (check_swap_loop c3Passage false c3Oracle.edges_left (by_id c3Passage "s")
              c3State ["s2"] 0 []).2 (by_id c3Passage "s").nid
            (by_id c3Passage "s2").nid = true)) :=
  ⟨by decide, by decide,
    swap_iteration_increments_iff c3Passage false c3Oracle.edges_left (by_id c3Passage "s")
      c3State "s2" [] 0 [] (by decide) (by decide)⟩

/-- C2 counterexample: a state in which steps 1–4 do not fire and
`edges_left ∩ s.outgoing` contains an edge to the buffer front, yet
`get_action` returns IMPLICIT (for the implicit-child edge that precedes it
in the scan), not RIGHT-EDGE / RIGHT-REMOTE. -/
theorem implicit_preempts_right_counterexample :
    c2Oracle.edges_left ≠ [] ∧
      stackPhase c2Oracle (by_id c2Passage "1.2") = none ∧
      nodeScan c2Oracle (by_id c2Passage "0.1") = none ∧
      ((by_id c2Passage "1.2").outgoing.filter
          (fun e => c2Oracle.edges_left.contains e)).any
        (fun e => e.childId == (by_id c2Passage "0.1").nid) = true ∧
      (get_action c2Passage c2Oracle c2State).1 = PAction.IMPLICIT "A" "1.3" ∧
      (get_action c2Passage c2Oracle c2State).1 ≠ PAction.RIGHT_EDGE "T" ∧
      (get_action c2Passage c2Oracle c2State).1 ≠ PAction.RIGHT_REMOTE "T" := by
  decide

/-- C2 amended: when steps 1–4 fall through and the single-pass scan over
`edges_left ∩ s.outgoing` finds a first edge whose child is the buffer front
or whose child is implicit, `get_action` returns RIGHT-EDGE / RIGHT-REMOTE
if that FIRST matching edge's child equals `b`, and IMPLICIT otherwise —
even if a later edge of the scan has child `b`. -/
theorem right_scan_first_match (p : Passage) (o : Oracle) (st : PState)
    (sid : String) (srest : List String) (bid : String) (brest : List String) (e : Edge)
    (hstk : st.stack = sid :: srest) (hbuf : st.buffer = bid :: brest)
    (hne : o.edges_left.isEmpty = false)
    (hsp : stackPhase o (by_id p sid) = none)
    (hns : nodeScan o (by_id p bid) = none)
    (hrs : rightScan p o (by_id p sid) (by_id p bid) = some e) :
    get_action p o st =
      (if e.childId == (by_id p bid).nid then
        ((if e.remote then PAction.RIGHT_REMOTE e.tag else PAction.RIGHT_EDGE e.tag),
          { o with edges_left := o.edges_left.erase e })
      else
        (PAction.IMPLICIT e.tag e.childId,
          { o with edges_left := o.edges_left.erase e,
                   nodes_left := o.nodes_left.erase e.childId })) := by
  unfold get_action afterStackPhase
  rw [hstk, hbuf]
  simp only [hne, Bool.false_eq_true, if_false, hsp, hns, hrs]

/-- Witness for `right_scan_first_match`. -/
theorem right_scan_first_match_witness :
    rightScan c2Passage c2Oracle (by_id c2Passage "1.2") (by_id c2Passage "0.1") =
        some c2EdgeImp ∧
      get_action c2Passage c2Oracle c2State =
        (if c2EdgeImp.childId == (by_id c2Passage "0.1").nid then
          ((if c2EdgeImp.remote then PAction.RIGHT_REMOTE c2EdgeImp.tag
            else PAction.RIGHT_EDGE c2EdgeImp.tag),
            { c2Oracle with edges_left := c2Oracle.edges_left.erase c2EdgeImp })
        else
          (PAction.IMPLICIT c2EdgeImp.tag c2EdgeImp.childId,
            { c2Oracle with edges_left := c2Oracle.edges_left.erase c2EdgeImp,
                            nodes_left := c2Oracle.nodes_left.erase c2EdgeImp.childId })) :=
  ⟨by decide,
    right_scan_first_match c2Passage c2Oracle c2State "1.2" [] "0.1" [] c2EdgeImp
      rfl rfl (by decide) (by decide) (by decide) (by decide)⟩

/-- C1 counterexample: on the minimal scenario with stack = [root] and
buffer = [terminal], the FIRST call to `get_action` returns
ROOT("A", "1.1") — the step-2 single-remaining-edge-to-root rule fires —
not NODE("A", child-id) as claimed. -/
theorem minimal_scenario_first_action_counterexample :
    (get_action c1Passage (Oracle.init c1Passage false) ⟨["1.1"], ["0.1"]⟩).1 =
        PAction.ROOT "A" "1.1" ∧
      (get_action c1Passage (Oracle.init c1Passage false) ⟨["1.1"], ["0.1"]⟩).1 ≠
        PAction.NODE "A" "1.2" := by
  decide

/-- C1 amended: the minimal scenario's action sequence.  The intermediate
states use the applier modelled from the spec — ROOT only attaches in the
graph and changes neither stack nor buffer, REDUCE pops the stack
(spec §4.1 step 2) — and the final call returns FINISH because `edges_left`
is empty.  The sequence is ROOT("A","1.1"), REDUCE,
NODE("Terminal","1.2"), FINISH. -/
theorem minimal_scenario_trace :
    get_action c1Passage (Oracle.init c1Passage false) ⟨["1.1"], ["0.1"]⟩ =
        (PAction.ROOT "A" "1.1", c1OracleAfter1) ∧
      get_action c1Passage c1OracleAfter1 ⟨["1.1"], ["0.1"]⟩ =
        (PAction.REDUCE, c1OracleAfter1) ∧
      get_action c1Passage c1OracleAfter1 ⟨[], ["0.1"]⟩ =
        (PAction.NODE "Terminal" "1.2", c1OracleAfter3) ∧
      get_action c1Passage c1OracleAfter3 ⟨[], ["0.1"]⟩ =
        (PAction.FINISH, c1OracleAfter3) := by
  decide

/-- C4 counterexample: calling `get_action` when `edges_left` is empty
(i.e. after FINISH has been returned) silently produces the action FINISH
again — no fatal error occurs (the code has no error path at this guard). -/
theorem finish_again_counterexample :
    get_action c1Passage c1OracleAfter3 ⟨["1.1"], ["0.1"]⟩ =
      (PAction.FINISH, c1OracleAfter3) := by
  decide

/-- C4 amended: whenever `edges_left` is empty — in particular on every call
after FINISH was returned — `get_action` returns FINISH again with the
oracle unchanged, rather than failing. -/
theorem get_action_after_finish (p : Passage) (o : Oracle) (st : PState)
    (h : o.edges_left = []) : get_action p o st = (PAction.FINISH, o) := by
  unfold get_action
  rw [h]
  simp

/-- Witness for `get_action_after_finish`. -/
theorem get_action_after_finish_witness :
    c1OracleAfter3.edges_left = [] ∧
      get_action c1Passage c1OracleAfter3 ⟨[], []⟩ = (PAction.FINISH, c1OracleAfter3) :=
  ⟨rfl, get_action_after_finish c1Passage c1OracleAfter3 ⟨[], []⟩ rfl⟩

lemma stackPhase_spec (o : Oracle) (s : Node) (a : PAction) (o' : Oracle)
    (h : stackPhase o s = some (a, o')) :
    o'.edges_left.Sublist o.edges_left ∧ o'.nodes_left = o.nodes_left ∧
      o'.swapped = o.swapped ∧ a ≠ PAction.WRAP := by
  unfold stackPhase at h
  dsimp only at h
  split at h
  · simp only [Option.some.injEq, Prod.mk.injEq] at h
    obtain ⟨ha, ho⟩ := h
    subst ha; subst ho
    exact ⟨List.Sublist.refl _, rfl, rfl, by simp⟩
  · split at h
    · split at h
      · simp only [Option.some.injEq, Prod.mk.injEq] at h
        obtain ⟨ha, ho⟩ := h
        subst ha; subst ho
        exact ⟨List.erase_sublist _ _, rfl, rfl, by simp⟩
      · exact absurd h (by simp)
    · exact absurd h (by simp)

lemma check_swap_distance_swapped_mono (p : Passage) (o : Oracle) (s : Node)
    (st : PState) (x : String × String) (hx : x ∈ o.swapped) :
    x ∈ (check_swap_distance p o s st).2 :=
  check_swap_loop_swapped_mono p o.compound_swap o.edges_left s st _ 0 o.swapped x hx

lemma afterStackPhase_spec (p : Passage) (o : Oracle) (st : PState) :
    (afterStackPhase p o st).2.edges_left.Sublist o.edges_left ∧
      (afterStackPhase p o st).2.nodes_left.Sublist o.nodes_left ∧
      ((afterStackPhase p o st).1 = PAction.WRAP →
        (afterStackPhase p o st).2.swapped = [] ∧ st.buffer = []) ∧
      ((afterStackPhase p o st).1 ≠ PAction.WRAP →
        ∀ x ∈ o.swapped, x ∈ (afterStackPhase p o st).2.swapped) := by
  unfold afterStackPhase
  split
  · rename_i hbuf
    exact ⟨List.Sublist.refl _, List.Sublist.refl _, fun _ => ⟨rfl, hbuf⟩,
      fun h => absurd rfl h⟩
  · rename_i bid brest hbuf
    dsimp only
    split
    · exact ⟨List.erase_sublist _ _, List.erase_sublist _ _, fun h => absurd h (by simp),
        fun _ x hx => hx⟩
    · split
      · exact ⟨List.Sublist.refl _, List.Sublist.refl _, fun h => absurd h (by simp),
          fun _ x hx => hx⟩
      · rename_i sid srest
        split
        · split
          · refine ⟨List.erase_sublist _ _, List.Sublist.refl _, fun h => ?_,
              fun _ x hx => hx⟩
            split at h <;> exact absurd h (by simp)
          · exact ⟨List.erase_sublist _ _, List.erase_sublist _ _,
              fun h => absurd h (by simp), fun _ x hx => hx⟩
        · split
          · refine ⟨List.erase_sublist _ _, List.Sublist.refl _, fun h => ?_,
              fun _ x hx => hx⟩
            split at h <;> exact absurd h (by simp)
          · split
            · exact ⟨List.Sublist.refl _, List.Sublist.refl _,
                fun h => absurd h (by simp),
                fun _ x hx => check_swap_distance_swapped_mono p o _ _ x hx⟩
            · exact ⟨List.Sublist.refl _, List.Sublist.refl _,
                fun h => absurd h (by simp),
                fun _ x hx => check_swap_distance_swapped_mono p o _ _ x hx⟩

/-- C5: across every `get_action` call, `edges_left` and `nodes_left` never
grow (each is a sublist of its previous value — at most one element is
removed), and `swapped` only grows except that it is cleared exactly on the
WRAP action, which is returned exactly when the buffer is empty and the
earlier steps fell through. -/
theorem oracle_set_monotonicity (p : Passage) (o : Oracle) (st : PState) :
    (get_action p o st).2.edges_left.Sublist o.edges_left ∧
      (get_action p o st).2.nodes_left.Sublist o.nodes_left ∧
      ((get_action p o st).1 = PAction.WRAP →
        (get_action p o st).2.swapped = [] ∧ st.buffer = []) ∧
      ((get_action p o st).1 ≠ PAction.WRAP →
        ∀ x ∈ o.swapped, x ∈ (get_action p o st).2.swapped) := by
  unfold get_action
  split
  · exact ⟨List.Sublist.refl _, List.Sublist.refl _, fun h => absurd h (by simp),
      fun _ x hx => hx⟩
  · split
    · exact afterStackPhase_spec p o st
    · split
      · rename_i r heq
        obtain ⟨h1, h2, h3, h4⟩ :=
          stackPhase_spec o _ r.1 r.2 (heq.trans (congrArg some Prod.mk.eta.symm))
        refine ⟨h1, h2 ▸ List.Sublist.refl _, fun h => absurd h h4, fun _ x hx => ?_⟩
        rw [h3]
        exact hx
      · exact afterStackPhase_spec p o st

/-- Witness for `oracle_set_monotonicity`, at a state whose buffer is empty
so that WRAP fires and `swapped` is cleared. -/
theorem oracle_set_monotonicity_witness :
    (get_action c2Passage c2Oracle ⟨["1.2"], []⟩).1 = PAction.WRAP ∧
      (get_action c2Passage c2Oracle ⟨["1.2"], []⟩).2.swapped = [] ∧
      (get_action c2Passage c2Oracle ⟨["1.2"], []⟩).2.edges_left.Sublist
        c2Oracle.edges_left ∧
      (get_action c2Passage c2Oracle ⟨["1.2"], []⟩).2.nodes_left.Sublist
        c2Oracle.nodes_left :=
  ⟨by decide,
    ((oracle_set_monotonicity c2Passage c2Oracle ⟨["1.2"], []⟩).2.2.1 (by decide)).1,
    (oracle_set_monotonicity c2Passage c2Oracle ⟨["1.2"], []⟩).1,
    (oracle_set_monotonicity c2Passage c2Oracle ⟨["1.2"], []⟩).2.1⟩

lemma scanTop_eq (pset visited : Finset String) (path : List String) :
    ∀ l : List String,
      scanTop pset visited path l =
        (((l.takeWhile (fun n => decide (n ∈ pset) || decide (n ∈ visited))).filter
            (fun n => decide (n ∈ pset))).map (fun _ => Diag.cycle path),
          (l.dropWhile (fun n => decide (n ∈ pset) || decide (n ∈ visited))).head?) := by
  intro l
  induction l with
  | nil => simp [scanTop]
  | cons n ns ih =>
    by_cases hp : n ∈ pset
    · simp [scanTop, hp, List.takeWhile_cons, List.dropWhile_cons, ih]
    · by_cases hv : n ∈ visited
      · simp [scanTop, hp, hv, List.takeWhile_cons, List.dropWhile_cons, ih]
      · simp [scanTop, hp, hv, List.takeWhile_cons, List.dropWhile_cons]

lemma scanTop_fst_cycle (pset visited : Finset String) (path : List String)
    (l : List String) : ∀ d ∈ (scanTop pset visited path l).1, d = Diag.cycle path := by
  rw [scanTop_eq]
  intro d hd
  obtain ⟨a, _, ha⟩ := List.mem_map.1 hd
  exact ha.symm

lemma scanTop_expand (pset visited : Finset String) (path : List String) :
    ∀ (l : List String) (n : String), (scanTop pset visited path l).2 = some n →
      n ∈ l ∧ n ∉ pset ∧ n ∉ visited := by
  intro l
  induction l with
  | nil => intro n h; simp [scanTop] at h
  | cons m ms ih =>
    intro n h
    simp only [scanTop] at h
    by_cases hp : m ∈ pset
    · rw [if_pos hp] at h
      obtain ⟨h1, h2, h3⟩ := ih n h
      exact ⟨List.mem_cons_of_mem _ h1, h2, h3⟩
    · rw [if_neg hp] at h
      by_cases hv : m ∈ visited
      · rw [if_pos hv] at h
        obtain ⟨h1, h2, h3⟩ := ih n h
        exact ⟨List.mem_cons_of_mem _ h1, h2, h3⟩
      · rw [if_neg hv] at h
        obtain hm := Option.some.inj h
        subst hm
        exact ⟨List.mem_cons_self _ _, hp, hv⟩

lemma scanTop_fst_length (pset visited : Finset String) (path : List String)
    (l : List String) : (scanTop pset visited path l).1.length ≤ l.length := by
  rw [scanTop_eq]
  calc (((l.takeWhile _).filter _).map (fun _ => Diag.cycle path)).length
      = ((l.takeWhile (fun n => decide (n ∈ pset) || decide (n ∈ visited))).filter
          (fun n => decide (n ∈ pset))).length := List.length_map _ _
    _ ≤ (l.takeWhile (fun n => decide (n ∈ pset) || decide (n ∈ visited))).length :=
        List.length_filter_le _ _
    _ ≤ l.length := (List.takeWhile_sublist _).length_le

lemma nodeCheckMsgs_shape (p : Passage) (n : Node) :
    ∀ d ∈ nodeCheckMsgs p n, d.isOrphan = false ∧ d.isReentrant = false := by
  intro d hd
  unfold nodeCheckMsgs at hd
  rcases List.mem_append.1 hd with h | h
  · split at h
    · rw [List.mem_singleton] at h
      subst h
      exact ⟨rfl, rfl⟩
    · cases h
  · obtain ⟨e, _, hmem⟩ := List.mem_flatMap.1 h
    rcases List.mem_append.1 hmem with h2 | h2
    · split at h2
      · rw [List.mem_singleton] at h2
        subst h2
        exact ⟨rfl, rfl⟩
      · cases h2
    · split at h2
      · rw [List.mem_singleton] at h2
        subst h2
        exact ⟨rfl, rfl⟩
      · cases h2

lemma nodeCheckMsgs_length (p : Passage) (n : Node) :
    (nodeCheckMsgs p n).length ≤ 1 + 2 * n.outgoing.length := by
  unfold nodeCheckMsgs
  dsimp only
  rw [List.length_append]
  have h1 : (if (n.incoming.filter
        (fun e => !e.remote && !(LINKAGE.contains e.tag))).length > 1 then
      [Diag.multiIncoming (n.incoming.filter
        (fun e => !e.remote && !(LINKAGE.contains e.tag)))] else []).length ≤ 1 := by
    split <;> simp
  have h2 : ∀ (l : List Edge),
      (l.flatMap (fun e =>
        (if (e.tag == EdgeTag_Punctuation) != ((by_id p e.childId).tag == NodeTag_Punctuation)
          then [Diag.punctEdge e.tag e (by_id p e.childId).tag] else []) ++
        (if (n.tag == NodeTag_Punctuation) != ((by_id p e.childId).tag == Layer0Tag_Punct)
          then [Diag.punctNode n.tag n.nid (by_id p e.childId).tag e.childId]
          else []))).length ≤ 2 * l.length := by
    intro l
    induction l with
    | nil => simp
    | cons e t ih =>
      rw [List.flatMap_cons, List.length_append, List.length_append]
      have a1 : (if (e.tag == EdgeTag_Punctuation) !=
          ((by_id p e.childId).tag == NodeTag_Punctuation)
          then [Diag.punctEdge e.tag e (by_id p e.childId).tag] else []).length ≤ 1 := by
        split <;> simp
      have a2 : (if (n.tag == NodeTag_Punctuation) !=
          ((by_id p e.childId).tag == Layer0Tag_Punct)
          then [Diag.punctNode n.tag n.nid (by_id p e.childId).tag e.childId]
          else []).length ≤ 1 := by
        split <;> simp
      simp only [List.length_cons]
      omega
  have := h2 n.outgoing
  omega

lemma dfsLoop_shape (p : Passage) : ∀ (fuel : Nat) (stack : List (List String))
    (path : List String) (pset visited : Finset String) (ms : List Diag),
    dfsLoop p fuel stack path pset visited = some ms →
    ∀ d ∈ ms, d.isOrphan = false ∧ d.isReentrant = false := by
  intro fuel
  induction fuel with
  | zero => intro stack path pset visited ms h; simp [dfsLoop] at h
  | succ fuel ih =>
    intro stack path pset visited ms h
    cases stack with
    | nil =>
      simp only [dfsLoop, Option.some.injEq] at h
      subst h
      intro d hd
      cases hd
    | cons top rest =>
      rw [dfsLoop] at h
      rcases hscan : scanTop pset visited path top with ⟨sc, opt⟩
      rw [hscan] at h
      cases opt with
      | some n =>
        dsimp only at h
        obtain ⟨more, hrec, hms⟩ := Option.map_eq_some'.1 h
        subst hms
        intro d hd
        rcases List.mem_append.1 hd with hd1 | hd2
        · rcases List.mem_append.1 hd1 with hd3 | hd4
          · have hc : d = Diag.cycle path := by
              apply scanTop_fst_cycle pset visited path top
              rw [hscan]
              exact hd3
            subst hc
            exact ⟨rfl, rfl⟩
          · exact nodeCheckMsgs_shape p _ d hd4
        · exact ih _ _ _ _ _ hrec d hd2
      | none =>
        dsimp only at h
        obtain ⟨more, hrec, hms⟩ := Option.map_eq_some'.1 h
        subst hms
        intro d hd
        rcases List.mem_append.1 hd with hd1 | hd2
        · have hc : d = Diag.cycle path := by
            apply scanTop_fst_cycle pset visited path top
            rw [hscan]
            exact hd1
          subst hc
          exact ⟨rfl, rfl⟩
        · exact ih _ _ _ _ _ hrec d hd2

lemma extraRootMsgs_shape (p : Passage) :
    ∀ d ∈ extraRootMsgs p, d.isOrphan = false ∧ d.isReentrant = false := by
  intro d hd
  unfold extraRootMsgs at hd
  obtain ⟨i, _, hmem⟩ := List.mem_flatMap.1 hd
  dsimp only at hmem
  split at hmem
  · rw [List.mem_singleton] at hmem
    subst hmem
    exact ⟨rfl, rfl⟩
  · cases hmem

lemma filter_terminalMsgs_orphan (p : Passage) :
    (terminalMsgs p).filter Diag.isOrphan =
      ((p.layer0Ids.map (by_id p)).filter (fun n => n.incoming.isEmpty)).map
        (fun n => Diag.orphan n.nid n.text) := by
  unfold terminalMsgs
  induction p.layer0Ids with
  | nil => simp
  | cons i t ih =>
    simp only [List.flatMap_cons, List.map_cons, List.filter_append, ih, List.filter_cons]
    by_cases h1 : (by_id p i).incoming.isEmpty
    · simp [h1, Diag.isOrphan]
    · by_cases h2 : (by_id p i).incoming.length > 1
      · simp [h1, h2, Diag.isOrphan]
      · simp [h1, h2]

lemma filter_terminalMsgs_reentrant (p : Passage) :
    (terminalMsgs p).filter Diag.isReentrant =
      ((p.layer0Ids.map (by_id p)).filter (fun n => decide (n.incoming.length > 1))).map
        (fun n => Diag.reentrant n.incoming n.text) := by
  unfold terminalMsgs
  induction p.layer0Ids with
  | nil => simp
  | cons i t ih =>
    simp only [List.flatMap_cons, List.map_cons, List.filter_append, ih, List.filter_cons]
    by_cases h1 : (by_id p i).incoming.isEmpty
    · have h2 : ¬((by_id p i).incoming.length > 1) := by
        rw [List.isEmpty_iff] at h1
        simp [h1]
      simp [h1, h2, Diag.isReentrant]
    · by_cases h2 : (by_id p i).incoming.length > 1
      · simp [h1, h2, Diag.isReentrant]
      · simp [h1, h2]

lemma filter_dfs_part (p : Passage) (q : Diag → Bool)
    (hq : ∀ ms, validateDfs p = some ms → ∀ d ∈ ms, q d = false) :
    ((validateDfs p).getD []).filter q = [] := by
  cases hv : validateDfs p with
  | none => rfl
  | some ms =>
    simp only [Option.getD_some]
    rw [List.filter_eq_nil_iff]
    intro d hd
    rw [hq ms hv d hd]
    simp

/-- C8: the orphan-terminal diagnostics of `validate` are exactly one per
terminal with no incoming edge, and the reentrant-terminal diagnostics are
exactly one per terminal with more than one incoming edge, each naming all
of that terminal's incoming edges; a terminal with exactly one incoming edge
contributes neither. -/
theorem terminal_diagnostics (p : Passage) :
    (validate p).filter Diag.isOrphan =
        ((p.layer0Ids.map (by_id p)).filter (fun n => n.incoming.isEmpty)).map
          (fun n => Diag.orphan n.nid n.text) ∧
      (validate p).filter Diag.isReentrant =
        ((p.layer0Ids.map (by_id p)).filter (fun n => decide (n.incoming.length > 1))).map
          (fun n => Diag.reentrant n.incoming n.text) := by
  have hdfsO : ((validateDfs p).getD []).filter Diag.isOrphan = [] := by
    apply filter_dfs_part
    intro ms hv d hd
    exact (dfsLoop_shape p (dfsFuel p) [p.headIds] [] ∅ ∅ ms hv d hd).1
  have hdfsR : ((validateDfs p).getD []).filter Diag.isReentrant = [] := by
    apply filter_dfs_part
    intro ms hv d hd
    exact (dfsLoop_shape p (dfsFuel p) [p.headIds] [] ∅ ∅ ms hv d hd).2
  have hrootO : (extraRootMsgs p).filter Diag.isOrphan = [] := by
    rw [List.filter_eq_nil_iff]
    intro d hd
    rw [(extraRootMsgs_shape p d hd).1]
    simp
  have hrootR : (extraRootMsgs p).filter Diag.isReentrant = [] := by
    rw [List.filter_eq_nil_iff]
    intro d hd
    rw [(extraRootMsgs_shape p d hd).2]
    simp
  constructor
  · rw [validate, List.filter_append, List.filter_append, filter_terminalMsgs_orphan,
      hrootO, hdfsO, List.append_nil, List.append_nil]
  · rw [validate, List.filter_append, List.filter_append, filter_terminalMsgs_reentrant,
      hrootR, hdfsR, List.append_nil, List.append_nil]

/-- C7: during the depth-first traversal, the scan of the stack's top list
yields one cycle diagnostic (naming the current path) for exactly each
scanned node lying on the current path (`path_set`); a node merely in
`visited` yields nothing and is skipped; the first node in neither set is
the one expanded.  On the concrete cycle A→B→C→A the validator yields
exactly the cycle diagnostic with path A->B->C and no orphan / reentrant
diagnostics. -/
theorem cycle_detection :
    (∀ (pset visited : Finset String) (path l : List String),
        scanTop pset visited path l =
          (((l.takeWhile (fun n => decide (n ∈ pset) || decide (n ∈ visited))).filter
              (fun n => decide (n ∈ pset))).map (fun _ => Diag.cycle path),
            (l.dropWhile (fun n => decide (n ∈ pset) || decide (n ∈ visited))).head?)) ∧
      validate cyclePassage = [Diag.cycle ["1.1", "1.2", "1.3"]] :=
  ⟨fun pset visited path l => scanTop_eq pset visited path l, by decide⟩

lemma by_id_mem_or_dummy (p : Passage) (i : String) :
    by_id p i ∈ p.nodes ∨ by_id p i = dummyNode := by
  unfold by_id
  cases hf : p.nodes.find? (fun n => n.nid == i) with
  | none => right; rfl
  | some n =>
    left
    simpa using List.mem_of_find?_eq_some hf

lemma outgoing_length_le (p : Passage) (i : String) :
    (by_id p i).outgoing.length ≤ edgeCount p := by
  rcases by_id_mem_or_dummy p i with h | h
  · unfold edgeCount
    exact List.single_le_sum (fun x _ => Nat.zero_le x) _ (List.mem_map_of_mem _ h)
  · rw [h]
    exact Nat.zero_le _

lemma childrenIds_subset_univ (p : Passage) (i : String) (x : String)
    (hx : x ∈ childrenIds p i) : x ∈ idUniverse p := by
  unfold childrenIds at hx
  obtain ⟨e, he, hex⟩ := List.mem_map.1 hx
  rcases by_id_mem_or_dummy p i with h | h
  · unfold idUniverse
    rw [List.mem_toFinset]
    refine List.mem_append.2 (Or.inr ?_)
    exact List.mem_flatMap.2 ⟨by_id p i, h, hex ▸ List.mem_map_of_mem _ he⟩
  · rw [h] at he
    cases he

lemma headIds_subset_univ (p : Passage) (i : String) (hi : i ∈ p.headIds) :
    i ∈ idUniverse p := by
  unfold idUniverse
  rw [List.mem_toFinset]
  exact List.mem_append.2 (Or.inl hi)

lemma dfs_adequacy (p : Passage) : ∀ (fuel : Nat) (stack : List (List String))
    (path : List String) (pset visited : Finset String),
    StackOK p stack → visited ⊆ idUniverse p →
    2 * ((idUniverse p).card - visited.card) + stack.length < fuel →
    ∃ ms, dfsLoop p fuel stack path pset visited = some ms ∧
      ms.length ≤ fuel * stepBound p := by
  intro fuel
  induction fuel with
  | zero => intro stack path pset visited _ _ hm; omega
  | succ fuel ih =>
    intro stack path pset visited hstk hvis hm
    cases stack with
    | nil => exact ⟨[], rfl, Nat.zero_le _⟩
    | cons top rest =>
      rw [dfsLoop]
      rcases hscan : scanTop pset visited path top with ⟨sc, opt⟩
      have hsclen : sc.length ≤ top.length := by
        have := scanTop_fst_length pset visited path top
        rw [hscan] at this
        exact this
      have htoplen : top.length ≤ p.headIds.length + edgeCount p :=
        (hstk top (List.mem_cons_self _ _)).1
      cases opt with
      | some n =>
        obtain ⟨hnl, hnp, hnv⟩ := scanTop_expand pset visited path top n (by rw [hscan])
        have hnu : n ∈ idUniverse p := (hstk top (List.mem_cons_self _ _)).2 n hnl
        have hcard : visited.card < (idUniverse p).card :=
          Finset.card_lt_card ((Finset.ssubset_iff_of_subset hvis).2 ⟨n, hnu, hnv⟩)
        have hstk' : StackOK p (childrenIds p n :: top :: rest) := by
          intro l hl
          rcases List.mem_cons.1 hl with h | h
          · subst h
            constructor
            · calc (childrenIds p n).length = (by_id p n).outgoing.length :=
                  List.length_map _ _
                _ ≤ edgeCount p := outgoing_length_le p n
                _ ≤ p.headIds.length + edgeCount p := Nat.le_add_left _ _
            · intro x hx
              exact childrenIds_subset_univ p n x hx
          · exact hstk l h
        have hvis' : insert n visited ⊆ idUniverse p := Finset.insert_subset hnu hvis
        have hm' : 2 * ((idUniverse p).card - (insert n visited).card) +
            (childrenIds p n :: top :: rest).length < fuel := by
          rw [Finset.card_insert_of_not_mem hnv]
          simp only [List.length_cons] at hm ⊢
          omega
        obtain ⟨more, hrec, hlen⟩ :=
          ih (childrenIds p n :: top :: rest) (path ++ [n]) (insert n pset)
            (insert n visited) hstk' hvis' hm'
        refine ⟨sc ++ nodeCheckMsgs p (by_id p n) ++ more, ?_, ?_⟩
        · dsimp only
          rw [hrec]
          rfl
        · have hck : (nodeCheckMsgs p (by_id p n)).length ≤ 1 + 2 * edgeCount p := by
            have h1 := nodeCheckMsgs_length p (by_id p n)
            have h2 := outgoing_length_le p n
            omega
          rw [List.length_append, List.length_append]
          unfold stepBound at hlen ⊢
          rw [Nat.succ_mul]
          omega
      | none =>
        have hstk' : StackOK p rest := fun l hl => hstk l (List.mem_cons_of_mem _ hl)
        have hm' : 2 * ((idUniverse p).card - visited.card) + rest.length < fuel := by
          simp only [List.length_cons] at hm
          omega
        dsimp only
        cases hgl : path.getLast? with
        | none =>
          dsimp only
          obtain ⟨more, hrec, hlen⟩ := ih rest path pset visited hstk' hvis hm'
          refine ⟨sc ++ more, ?_, ?_⟩
          · rw [hrec]
            rfl
          · rw [List.length_append]
            unfold stepBound at hlen ⊢
            rw [Nat.succ_mul]
            omega
        | some last =>
          dsimp only
          obtain ⟨more, hrec, hlen⟩ :=
            ih rest path.dropLast (pset.erase last) visited hstk' hvis hm'
          refine ⟨sc ++ more, ?_, ?_⟩
          · rw [hrec]
            rfl
          · rw [List.length_append]
            unfold stepBound at hlen ⊢
            rw [Nat.succ_mul]
            omega

lemma terminalMsgs_length (p : Passage) :
    (terminalMsgs p).length ≤ p.layer0Ids.length := by
  unfold terminalMsgs
  induction p.layer0Ids with
  | nil => simp
  | cons i t ih =>
    rw [List.flatMap_cons, List.length_append, List.length_cons]
    have h1 : (let node := by_id p i
        if node.incoming.isEmpty then [Diag.orphan node.nid node.text]
        else if node.incoming.length > 1 then [Diag.reentrant node.incoming node.text]
        else []).length ≤ 1 := by
      dsimp only
      split
      · simp
      · split <;> simp
    omega

lemma extraRootMsgs_length (p : Passage) :
    (extraRootMsgs p).length ≤ p.headIds.length := by
  unfold extraRootMsgs
  induction p.headIds with
  | nil => simp
  | cons i t ih =>
    rw [List.flatMap_cons, List.length_append, List.length_cons]
    have h1 : (let node := by_id p i
        if node.nid != "1.1" && node.tag != NodeTag_Linkage then [Diag.extraRoot node.nid]
        else []).length ≤ 1 := by
      dsimp only
      split <;> simp
    omega

/-- C9: `validate` terminates on every finite passage, cyclic ones included:
the depth-first phase completes within the explicit fuel `dfsFuel` (so the
fuel parameter is never the limiting factor), and the total number of
diagnostics is bounded by `diagBound`, a function of the passage's node and
edge counts alone.  The embedding is purely functional, so `validate`
cannot mutate the passage and repeated invocations return the same list. -/
theorem validate_terminates_and_bounded (p : Passage) :
    (∃ ms, validateDfs p = some ms) ∧ (validate p).length ≤ diagBound p := by
  have hstk : StackOK p [p.headIds] := by
    intro l hl
    rw [List.mem_singleton] at hl
    subst hl
    exact ⟨Nat.le_add_right _ _, fun i hi => headIds_subset_univ p i hi⟩
  have hvis : (∅ : Finset String) ⊆ idUniverse p := Finset.empty_subset _
  have hm : 2 * ((idUniverse p).card - (∅ : Finset String).card) + [p.headIds].length <
      dfsFuel p := by
    simp [dfsFuel]
  obtain ⟨ms, hms, hlen⟩ := dfs_adequacy p (dfsFuel p) [p.headIds] [] ∅ ∅ hstk hvis hm
  have hv : validateDfs p = some ms := hms
  refine ⟨⟨ms, hv⟩, ?_⟩
  have ht := terminalMsgs_length p
  have hr := extraRootMsgs_length p
  have hd : ((validateDfs p).getD []).length ≤ dfsFuel p * stepBound p := by
    rw [hv]
    exact hlen
  unfold validate diagBound
  rw [List.length_append, List.length_append]
  omega
